import Mathlib

/-!
Verification development for the `eos-bios` BIOS boot coordinator.

The Go program under verification expands a candidate producer list into a
22-slot schedule (cloning candidates when there are fewer than 22), resolves
the local node's role (boot node / appointed block producer / participant),
batches chain actions for submission, encodes and decodes the out-of-band
"kickstart" handoff payload, and polls the chain until the system account is
disabled.  Each Go function used by the claims is embedded below as an
executable Lean definition; machine integers are modelled as `Nat`/`Int`
(Go byte/int overflow made explicit with `% 256`), Go panics as explicit
error constructors, and Go's fallible calls as `Option`/`Except` values.
-/

/-- Embeds the Go `ProducerDef` struct.  The struct declaration itself lives
outside the embedded files; its fields are taken from the uses in
`ShuffleProducers` (AccountName, Authority, InitialBlockSigningPublicKey,
KeybaseUser, PGPPublicKey, OrganizationName, Timezone, URLs, clonedFrom) and
from the spec's data model ("account identifier, authority/key material,
organization metadata, optional clone-source back-reference").  Fields other
than the account name are opaque payload carriers, modelled as strings. -/
structure ProducerDef where
  accountName : String
  authority : String
  initialBlockSigningPublicKey : String
  keybaseUser : String
  pgpPublicKey : String
  organizationName : String
  timezone : String
  urls : List String
  clonedFrom : String := ""
  deriving DecidableEq, Repr, Inhabited

/-- Embeds Go `accountVariation(name, variation)`:
shorten `name` to its first 10 bytes when longer than 10, then append a dot
and the single byte `'a' + byte(variation-1)`.  Go's `byte` arithmetic wraps
modulo 256, written out explicitly. -/
def accountVariation (name : String) (variation : Nat) : String :=
  let name := if name.length > 10 then name.take 10 else name
  name ++ "." ++ String.singleton (Char.ofNat ((97 + (variation - 1) % 256) % 256))

/-- Embeds the clone construction inside the padding loop of
`ShuffleProducers`: a fresh `ProducerDef` copying `fromProd`, with a varied
account name, an organization name tagged `" - clone N"`, and the
`clonedFrom` back-reference set. -/
def cloneProducer (fromProd : ProducerDef) (count : Nat) : ProducerDef :=
  { accountName := accountVariation fromProd.accountName count
    authority := fromProd.authority
    initialBlockSigningPublicKey := fromProd.initialBlockSigningPublicKey
    keybaseUser := fromProd.keybaseUser
    pgpPublicKey := fromProd.pgpPublicKey
    organizationName := fromProd.organizationName ++ " - clone " ++ toString count
    timezone := fromProd.timezone
    urls := fromProd.urls
    clonedFrom := fromProd.accountName }

/-- Outcomes of the schedule-padding loop that are not a normal return:
Go runtime panics (`divByZero` for `count % 0`, `indexOutOfRange` for a
slice index out of bounds), the spec's named error `scheduleTooSmall`
(present in the error vocabulary; the code has no path producing it), and
`fuelOut`, an artifact of giving the unbounded Go `for` loop explicit fuel
(proved unreachable from the actual entry point). -/
inductive PadError where
  | divByZero
  | indexOutOfRange
  | scheduleTooSmall
  | fuelOut
  deriving DecidableEq, Repr

/-- Embeds the `for { ... }` padding loop of `ShuffleProducers`.  One
iteration: stop when the schedule has 22 entries, otherwise read
`sched[1 + count % cloneCount]` (Go panics when `cloneCount == 0`, and when
the index falls outside the slice), increment `count`, and append the clone.
`cloneCount` is an `Int` because Go computes `numProds - 1` in `int`
arithmetic (so a 0-candidate list yields `-1`).  `Int.tmod` is Go's
truncated `%`.  The loop is given explicit fuel; the caller passes enough
for the at most `22 - len` iterations the loop can make. -/
def padLoop (cloneCount : Int) : Nat → Nat → List ProducerDef → Except PadError (List ProducerDef)
  | 0, _, sched => if sched.length = 22 then .ok sched else .error .fuelOut
  | fuel + 1, count, sched =>
    if sched.length = 22 then .ok sched
    else if cloneCount = 0 then .error .divByZero
    else
      let idx : Int := 1 + Int.tmod count cloneCount
      if 0 ≤ idx then
        match sched.get? idx.toNat with
        | some fromProd =>
            padLoop cloneCount fuel (count + 1) (sched ++ [cloneProducer fromProd (count + 1)])
        | none => .error .indexOutOfRange
      else .error .indexOutOfRange

/-- Embeds `(b *BIOS) ShuffleProducers`: both the `NoShuffle` branch and the
not-implemented shuffle branch install the candidate list unchanged as the
schedule; afterwards, when fewer than 22 producers are present, the padding
loop clones candidates until 22 slots are filled.  Fuel 22 is enough for
every reachable entry state (the loop starts below 22 entries and each
iteration appends exactly one). -/
def shuffleProducers (producers : List ProducerDef) : Except PadError (List ProducerDef) :=
  if producers.length < 22 then
    padLoop ((producers.length : Int) - 1) 22 0 producers
  else .ok producers

/-- The clone the i-th iteration of the padding loop appends (i ≥ 1):
a copy of `candidates[1 + (i-1) % (len-1)]` varied with counter `i`. -/
def expectedClone (prods : List ProducerDef) (i : Nat) : ProducerDef :=
  cloneProducer (prods.getD (1 + (i - 1) % (prods.length - 1)) default) i

/-- Closed form of the padded schedule: the candidates followed by the
`22 - len` clones the loop appends. -/
def paddedSchedule (prods : List ProducerDef) : List ProducerDef :=
  prods ++ (List.range (22 - prods.length)).map fun k => expectedClone prods (k + 1)

/-- Embeds `(b *BIOS) IsBootNode(account)`: the account of schedule slot 0
equals `account`.  (Go indexes `ShuffledProducers[0]` directly; every claim
about roles supplies a 22-entry schedule, so the empty-schedule panic case
is outside every theorem's domain and is rendered as `false` here.) -/
def isBootNode (sched : List ProducerDef) (account : String) : Bool :=
  match sched.get? 0 with
  | some p => p.accountName == account
  | none => false

/-- Embeds `(b *BIOS) IsAppointedBlockProducer(account)`: scan slots
`i = 1` to `21` while `i < len(sched)`, returning true on the first slot
whose account equals `account`. -/
def isAppointedBlockProducer (sched : List ProducerDef) (account : String) : Bool :=
  (List.range' 1 21).any fun i =>
    match sched.get? i with
    | some p => p.accountName == account
    | none => false

/-- The three execution paths `(b *BIOS) Run` branches into. -/
inductive Role where
  | bootNode
  | appointedProducer
  | participant
  deriving DecidableEq, Repr

/-- Embeds the role branch of `(b *BIOS) Run`: the boot-node path when
`AmIBootNode()`, otherwise the ABP path when `AmIAppointedBlockProducer()`,
otherwise the participant path. -/
def resolveRole (sched : List ProducerDef) (account : String) : Role :=
  if isBootNode sched account then .bootNode
  else if isAppointedBlockProducer sched account then .appointedProducer
  else .participant

/-- Embeds `(b *BIOS) MyProducerDef`: the first entry of the (un-padded)
launch-file producer list whose account name equals the local account,
`none` when no entry matches (Go returns the "no local producer config
found" error). -/
def myProducerDef (producers : List ProducerDef) (myAccount : String) : Option ProducerDef :=
  producers.find? fun prod => myAccount == prod.accountName

/-- The failure of `setMyProducerDefs`: the spec's `UnknownProducer`. -/
inductive MyDefsError where
  | unknownProducer
  deriving DecidableEq, Repr

/-- Embeds `(b *BIOS) setMyProducerDefs`: resolve the local producer in the
launch file (failing with the unknown-producer error), then append every
schedule entry whose `clonedFrom` equals the local producer's account name,
in schedule order. -/
def setMyProducerDefs (producers sched : List ProducerDef) (myAccount : String) :
    Except MyDefsError (List ProducerDef) :=
  match myProducerDef producers myAccount with
  | none => .error .unknownProducer
  | some myProd =>
      .ok (myProd :: sched.filter fun prod => prod.clonedFrom == myProd.accountName)

/-- One fold step of `chunkifyActions`: Go first flushes `currentChunk` into
`out` when it already holds more than `chunkSize` actions, then appends the
incoming action to the (possibly fresh) current chunk. -/
def chunkifyStep (chunkSize : Nat) (st : List (List α) × List α) (act : α) :
    List (List α) × List α :=
  if st.2.length > chunkSize then (st.1 ++ [st.2], [act]) else (st.1, st.2 ++ [act])

/-- Embeds `chunkifyActions(actions, chunkSize)`: fold the flush-then-append
step over the actions, then emit the trailing chunk when non-empty. -/
def chunkifyActions (actions : List α) (chunkSize : Nat) : List (List α) :=
  let st := actions.foldl (chunkifyStep chunkSize) ([], [])
  if st.2.length > 0 then st.1 ++ [st.2] else st.1

/-- Go strings are byte strings; payload text is modelled as a list of byte
values.  `strBytes` renders an ASCII Lean string literal as such a list. -/
def strBytes (s : String) : List Nat :=
  s.data.map Char.toNat

/-- The base64 standard-alphabet character (as a byte value) for a sextet. -/
def b64char (s : Nat) : Nat :=
  if s < 26 then 65 + s
  else if s < 52 then 97 + (s - 26)
  else if s < 62 then 48 + (s - 52)
  else if s = 62 then 43
  else 47

/-- Inverse of the base64 standard alphabet; `none` on a byte outside it. -/
def b64val (c : Nat) : Option Nat :=
  if 65 ≤ c ∧ c ≤ 90 then some (c - 65)
  else if 97 ≤ c ∧ c ≤ 122 then some (26 + (c - 97))
  else if 48 ≤ c ∧ c ≤ 57 then some (52 + (c - 48))
  else if c = 43 then some 62
  else if c = 47 then some 63
  else none

/-- Embeds Go `base64.RawStdEncoding.EncodeToString`: groups of three bytes
become four alphabet characters; a final group of one or two bytes becomes
two or three characters, with no padding. -/
def b64encode : List Nat → List Nat
  | [] => []
  | [b1] => [b64char (b1 / 4), b64char (b1 % 4 * 16)]
  | [b1, b2] => [b64char (b1 / 4), b64char (b1 % 4 * 16 + b2 / 16), b64char (b2 % 16 * 4)]
  | b1 :: b2 :: b3 :: rest =>
      b64char (b1 / 4) :: b64char (b1 % 4 * 16 + b2 / 16) ::
        b64char (b2 % 16 * 4 + b3 / 64) :: b64char (b3 % 64) :: b64encode rest

/-- Embeds Go `base64.RawStdEncoding.DecodeString`: groups of four
characters yield three bytes; a final group of three or two characters
yields two bytes or one; a final group of one character, or any byte
outside the alphabet, is a decode error (`none`). -/
def b64decode : List Nat → Option (List Nat)
  | [] => some []
  | [_] => none
  | [c1, c2] =>
      match b64val c1, b64val c2 with
      | some s1, some s2 => some [s1 * 4 + s2 / 16]
      | _, _ => none
  | [c1, c2, c3] =>
      match b64val c1, b64val c2, b64val c3 with
      | some s1, some s2, some s3 => some [s1 * 4 + s2 / 16, s2 % 16 * 16 + s3 / 4]
      | _, _, _ => none
  | c1 :: c2 :: c3 :: c4 :: rest =>
      match b64val c1, b64val c2, b64val c3, b64val c4, b64decode rest with
      | some s1, some s2, some s3, some s4, some tail =>
          some ((s1 * 4 + s2 / 16) :: (s2 % 16 * 16 + s3 / 4) :: (s3 % 4 * 64 + s4) :: tail)
      | _, _, _, _, _ => none

/-- ASCII whitespace, as recognised byte-wise by Go `strings.TrimSpace`. -/
def isSpaceByte (b : Nat) : Bool :=
  b == 9 || b == 10 || b == 11 || b == 12 || b == 13 || b == 32

/-- Embeds Go `strings.TrimSpace`: drop whitespace from both ends. -/
def trimSpaceBytes (l : List Nat) : List Nat :=
  (((l.dropWhile isSpaceByte).reverse.dropWhile isSpaceByte).reverse)

/-- Embeds the cleanup in `waitOnKickstartData`:
`strings.Replace(strings.TrimSpace(lines), "\n", "", -1)` — trim surrounding
whitespace, then delete every embedded newline byte. -/
def stripKickstartText (l : List Nat) : List Nat :=
  (trimSpaceBytes l).filter fun b => b != 10

/-- Embeds the Go `KickstartData` struct.  The struct declaration (with its
JSON tags) is not among the embedded files; the fields follow the spec's
wire format: JSON with p2p address, ephemeral public key, ephemeral private
key, and genesis descriptor string, each a (byte-)string. -/
structure KickstartData where
  biosP2PAddress : List Nat
  publicKeyUsed : List Nat
  privateKeyUsed : List Nat
  genesisJSON : List Nat
  deriving DecidableEq, Repr, Inhabited

/-- Lowercase hex digit byte for a nibble. -/
def hexDigit (x : Nat) : Nat :=
  if x < 10 then 48 + x else 87 + x

/-- Inverse of a hex digit byte (upper or lower case); `none` otherwise. -/
def hexVal (c : Nat) : Option Nat :=
  if 48 ≤ c ∧ c ≤ 57 then some (c - 48)
  else if 97 ≤ c ∧ c ≤ 102 then some (c - 87)
  else if 65 ≤ c ∧ c ≤ 70 then some (c - 55)
  else none

/-- JSON string-content escaping: quote and backslash get a backslash
escape, control bytes become a `\u00XX` escape, everything else is passed
through. -/
def escapeByte (b : Nat) : List Nat :=
  if b = 34 then [92, 34]
  else if b = 92 then [92, 92]
  else if b < 32 then [92, 117, 48, 48, hexDigit (b / 16), hexDigit (b % 16)]
  else [b]

/-- Escape every byte of a JSON string's content. -/
def escapeString (s : List Nat) : List Nat :=
  (s.map escapeByte).flatten

/-- A JSON string literal: quote, escaped content, quote. -/
def jsonStringBytes (s : List Nat) : List Nat :=
  34 :: (escapeString s ++ [34])

/-- Modelled from the spec: the JSON serialization of `KickstartData`
(`encoding/json` marshalling and the struct's JSON tags are outside the
embedded files).  Per the spec's wire format the payload is a JSON object
with the four string members in struct order. -/
def marshalKickstart (kd : KickstartData) : List Nat :=
  [123] ++ jsonStringBytes (strBytes "bios_p2p_address") ++ [58] ++
    jsonStringBytes kd.biosP2PAddress ++ [44] ++
  jsonStringBytes (strBytes "public_key_used") ++ [58] ++
    jsonStringBytes kd.publicKeyUsed ++ [44] ++
  jsonStringBytes (strBytes "private_key_used") ++ [58] ++
    jsonStringBytes kd.privateKeyUsed ++ [44] ++
  jsonStringBytes (strBytes "genesis_json") ++ [58] ++
    jsonStringBytes kd.genesisJSON ++ [125]

/-- Strip an exact byte sequence from the front of a list; `none` when the
list does not start with it. -/
def stripPrefixBytes : List Nat → List Nat → Option (List Nat)
  | [], l => some l
  | _ :: _, [] => none
  | p :: ps, b :: bs => if b = p then stripPrefixBytes ps bs else none

/-- Parse the body of a JSON string literal (after its opening quote) up to
and including the closing quote, undoing the escapes `escapeByte` emits;
returns the content and the remaining input. -/
def parseStringBody (l : List Nat) : Option (List Nat × List Nat) :=
  match l with
  | [] => none
  | b :: rest =>
    if b = 34 then some ([], rest)
    else if b = 92 then
      match rest with
      | 34 :: r => (parseStringBody r).map fun p => (34 :: p.1, p.2)
      | 92 :: r => (parseStringBody r).map fun p => (92 :: p.1, p.2)
      | 117 :: 48 :: 48 :: h1 :: h2 :: r =>
          match hexVal h1, hexVal h2 with
          | some x1, some x2 => (parseStringBody r).map fun p => ((x1 * 16 + x2) :: p.1, p.2)
          | _, _ => none
      | _ => none
    else (parseStringBody rest).map fun p => (b :: p.1, p.2)

/-- Parse one `"key":"value"` member for a fixed key, returning the decoded
value and the remaining input. -/
def parseMember (key : String) (l : List Nat) : Option (List Nat × List Nat) :=
  match stripPrefixBytes (34 :: (strBytes key ++ [34, 58, 34])) l with
  | none => none
  | some l1 => parseStringBody l1

/-- Modelled from the spec: unmarshalling the kickstart JSON payload
(`encoding/json` and the struct's JSON tags are outside the embedded
files).  Accepts exactly the structured form `marshalKickstart` emits —
a JSON object with the four expected string members — and fails on any
other byte sequence. -/
def unmarshalKickstart (l : List Nat) : Option KickstartData :=
  match stripPrefixBytes [123] l with
  | none => none
  | some l0 =>
    match parseMember "bios_p2p_address" l0 with
    | none => none
    | some (v1, l1) =>
      match stripPrefixBytes [44] l1 with
      | none => none
      | some l1' =>
        match parseMember "public_key_used" l1' with
        | none => none
        | some (v2, l2) =>
          match stripPrefixBytes [44] l2 with
          | none => none
          | some l2' =>
            match parseMember "private_key_used" l2' with
            | none => none
            | some (v3, l3) =>
              match stripPrefixBytes [44] l3 with
              | none => none
              | some l3' =>
                match parseMember "genesis_json" l3' with
                | none => none
                | some (v4, l4) =>
                  match stripPrefixBytes [125] l4 with
                  | none => none
                  | some l5 =>
                    if l5 = [] then
                      some ⟨v1, v2, v3, v4⟩
                    else none

/-- Embeds the kickstart encoding of `RunBootNodeStage1`:
`base64.RawStdEncoding.EncodeToString(json.Marshal(kickstartData))`. -/
def encodeKickstart (kd : KickstartData) : List Nat :=
  b64encode (marshalKickstart kd)

/-- The two named decode failures of the spec: `malformedHandoff` covers the
base64 decode error and the JSON unmarshal error of `waitOnKickstartData`;
`invalidKey` is its `ecc.NewPrivateKey` failure. -/
inductive DecodeError where
  | malformedHandoff
  | invalidKey
  deriving DecidableEq, Repr

/-- Embeds the decoding part of `waitOnKickstartData`: trim and strip
newlines, base64-decode, JSON-unmarshal, then parse the embedded private
key.  The private-key parser (`ecc.NewPrivateKey`, an external library) is a
parameter `keyOK`; no relation between the embedded public and private keys
is ever checked. -/
def decodeKickstart (keyOK : List Nat → Bool) (l : List Nat) : Except DecodeError KickstartData :=
  match b64decode (stripKickstartText l) with
  | none => .error .malformedHandoff
  | some raw =>
    match unmarshalKickstart raw with
    | none => .error .malformedHandoff
    | some kd =>
      if keyOK kd.privateKeyUsed then .ok kd else .error .invalidKey

/-- A byte string: every element below 256. -/
def ValidBytes (l : List Nat) : Prop :=
  ∀ b ∈ l, b < 256

instance : DecidablePred ValidBytes := fun l =>
  inferInstanceAs (Decidable (∀ b ∈ l, b < 256))

/-- A kickstart payload whose four fields are byte strings. -/
def ValidKickstart (kd : KickstartData) : Prop :=
  ValidBytes kd.biosP2PAddress ∧ ValidBytes kd.publicKeyUsed ∧
    ValidBytes kd.privateKeyUsed ∧ ValidBytes kd.genesisJSON

instance : DecidablePred ValidKickstart := fun _ =>
  inferInstanceAs (Decidable (_ ∧ _ ∧ _ ∧ _))

/-- One permission entry of the `GetAccount` response, carrying its
`RequiredAuth.Threshold`. -/
structure AccountPermission where
  threshold : Nat
  deriving DecidableEq, Repr

/-- The `GetAccount` response data `RunABPStage1` inspects. -/
structure AccountResp where
  permissions : List AccountPermission
  deriving DecidableEq, Repr

/-- Embeds the negated `continue` condition of the verification loop in
`RunABPStage1`: the `eosio` account counts as disabled exactly when it has
two permission entries and both carry authority threshold 0. -/
def eosioDisabled (acct : AccountResp) : Bool :=
  acct.permissions.length == 2 &&
    ((acct.permissions.get? 0).map AccountPermission.threshold == some 0) &&
    ((acct.permissions.get? 1).map AccountPermission.threshold == some 0)

/-- One poll iteration's exit decision in `RunABPStage1`: a failed
`GetAccount` read (`.error`) continues the loop exactly like a
not-yet-disabled account; only a successful read of a disabled account
exits. -/
def abpPollStep (resp : Except Unit AccountResp) : Bool :=
  match resp with
  | .error _ => false
  | .ok acct => eosioDisabled acct

/-- Embeds the `for { time.Sleep(1s); ... }` verification loop of
`RunABPStage1` over a response stream indexed by iteration (one iteration
per second).  The Go loop is unbounded; the explicit `fuel` only truncates
observation: `some t` means the loop exited at iteration `t`, `none` means
it was still polling after `fuel` iterations. -/
def runABPPoll (responses : Nat → Except Unit AccountResp) : Nat → Nat → Option Nat
  | 0, _ => none
  | fuel + 1, t => if abpPollStep (responses t) then some t else runABPPoll responses fuel (t + 1)

/-- A sample producer with the given account and organization names. -/
def mkProd (name org : String) : ProducerDef :=
  ⟨name, "auth", "sigkey", "kb", "pgp", org, "tz", ["https://example.org"], ""⟩

/-- Two sample candidates; padding clones only the second. -/
def demo2 : List ProducerDef :=
  [mkProd "boot" "Boot Org", mkProd "abc" "Org"]

/-- Five sample candidates, as in the spec's scenario A. -/
def demo5 : List ProducerDef :=
  [mkProd "boot" "O0", mkProd "abc" "O1", mkProd "acct2" "O2",
    mkProd "acct3" "O3", mkProd "acct4" "O4"]

/-- A degenerate 22-slot schedule in which every slot carries the same
account name. -/
def dupSched : List ProducerDef :=
  List.replicate 22 (mkProd "dup" "D")

/-- A sample clone of the `abc` candidate. -/
def demoClone : ProducerDef :=
  cloneProducer (mkProd "abc" "Org") 1

/-- A three-entry sample schedule containing one clone of `abc`. -/
def demoSched3 : List ProducerDef :=
  [mkProd "boot" "Boot Org", mkProd "abc" "Org", demoClone]

/-- A sample private-key parser accepting exactly one key string. -/
def demoKeyOK : List Nat → Bool :=
  fun k => k == strBytes "5KPrivateKeySample"

/-- A sample kickstart payload. -/
def demoKd : KickstartData :=
  ⟨strBytes "p2p.example.com:9876", strBytes "EOSSamplePublicKey",
    strBytes "5KPrivateKeySample", strBytes "genesis-descriptor"⟩

/-- The sample payload with a public key that does not correspond to its
private key (the decoder never checks any correspondence). -/
def demoMismatchKd : KickstartData :=
  ⟨strBytes "p2p.example.com:9876", strBytes "EOSUnrelatedOtherKey",
    strBytes "5KPrivateKeySample", strBytes "genesis-descriptor"⟩

/-- The sample payload's encoded token, split across three lines (leading,
embedded and trailing newlines). -/
def demoSplitText : List Nat :=
  10 :: ((encodeKickstart demoKd).take 7 ++ [10] ++ (encodeKickstart demoKd).drop 7 ++ [10])

/-- A response stream whose every read fails. -/
def errStream : Nat → Except Unit AccountResp :=
  fun _ => .error ()

/-- A response stream: two failed reads, one not-yet-disabled account, then
a disabled account from iteration 3 on. -/
def demoStream : Nat → Except Unit AccountResp :=
  fun t =>
    if t < 2 then .error ()
    else if t = 2 then .ok ⟨[⟨1⟩, ⟨0⟩]⟩
    else .ok ⟨[⟨0⟩, ⟨0⟩]⟩

theorem padLoop_done (cloneCount : Int) (fuel count : Nat) (sched : List ProducerDef)
    (h : sched.length = 22) : padLoop cloneCount fuel count sched = .ok sched := by
  cases fuel <;> simp [padLoop, h]

theorem padLoop_invariant (prods : List ProducerDef) (hL : 2 ≤ prods.length)
    (fuel c : Nat) (hfuel : 22 - (prods.length + c) ≤ fuel) (hle : prods.length + c ≤ 22) :
    padLoop ((prods.length : Int) - 1) fuel c
        (prods ++ (List.range c).map fun k => expectedClone prods (k + 1)) =
      .ok (paddedSchedule prods) := by
  induction fuel generalizing c with
  | zero =>
      have hc : c = 22 - prods.length := by omega
      subst hc
      rw [padLoop_done]
      · rfl
      · simp; omega
  | succ fuel ih =>
      by_cases hc : prods.length + c = 22
      · have hc' : c = 22 - prods.length := by omega
        subst hc'
        rw [padLoop_done]
        · rfl
        · simp; omega
      · have hlt : prods.length + c < 22 := by omega
        have hlen : (prods ++ (List.range c).map fun k => expectedClone prods (k + 1)).length
            = prods.length + c := by simp
        have h1 : ((prods.length - 1 : Nat) : Int) = (prods.length : Int) - 1 := by omega
        have hmodlt : c % (prods.length - 1) < prods.length - 1 :=
          Nat.mod_lt _ (by omega)
        have hmod : Int.tmod (c : Int) ((prods.length : Int) - 1)
            = ((c % (prods.length - 1) : Nat) : Int) := by
          rw [← h1, ← Int.ofNat_tmod]
        have hidx : (1 + Int.tmod (c : Int) ((prods.length : Int) - 1)).toNat
            = 1 + c % (prods.length - 1) := by omega
        have hnonneg : 0 ≤ 1 + Int.tmod (c : Int) ((prods.length : Int) - 1) := by omega
        have hidxp : (1 + Int.tmod (c : Int) ((prods.length : Int) - 1)).toNat
            < prods.length := by omega
        simp only [padLoop, hlen]
        rw [if_neg (by omega)]
        rw [if_neg (by omega : ¬((prods.length : Int) - 1 = 0))]
        rw [if_pos hnonneg]
        rw [List.get?_eq_getElem?, List.getElem?_append_left hidxp,
          List.getElem?_eq_getElem hidxp]
        rw [← List.getD_eq_getElem prods default hidxp, hidx]
        have hclone : cloneProducer (prods.getD (1 + c % (prods.length - 1)) default) (c + 1)
            = expectedClone prods (c + 1) := by
          simp [expectedClone]
        simp only [hclone]
        have happ : (prods ++ (List.range c).map fun k => expectedClone prods (k + 1))
              ++ [expectedClone prods (c + 1)]
            = prods ++ (List.range (c + 1)).map fun k => expectedClone prods (k + 1) := by
          rw [List.append_assoc, List.range_succ, List.map_append]
          rfl
        rw [happ]
        exact ih (c + 1) (by omega) (by omega)

theorem shuffleProducers_pad (prods : List ProducerDef) (h2 : 2 ≤ prods.length)
    (h22 : prods.length < 22) :
    shuffleProducers prods = .ok (paddedSchedule prods) := by
  rw [shuffleProducers, if_pos h22]
  have h := padLoop_invariant prods h2 22 0 (by omega) (by omega)
  simpa using h

theorem shuffleProducers_large (prods : List ProducerDef) (h : 22 ≤ prods.length) :
    shuffleProducers prods = .ok prods := by
  rw [shuffleProducers, if_neg (by omega)]

theorem paddedSchedule_length (prods : List ProducerDef) (h : prods.length ≤ 22) :
    (paddedSchedule prods).length = 22 := by
  simp only [paddedSchedule, List.length_append, List.length_map, List.length_range]
  omega

theorem paddedSchedule_take (prods : List ProducerDef) :
    (paddedSchedule prods).take prods.length = prods := by
  simp [paddedSchedule]

theorem paddedSchedule_clone (prods : List ProducerDef) (i : Nat) (h1 : 1 ≤ i)
    (h2 : i ≤ 22 - prods.length) :
    (paddedSchedule prods).get? (prods.length + i - 1) = some (expectedClone prods i) := by
  rw [paddedSchedule, List.get?_eq_getElem?]
  rw [List.getElem?_append_right (by omega)]
  have hsub : prods.length + i - 1 - prods.length = i - 1 := by omega
  rw [hsub, List.getElem?_map, List.getElem?_range (by omega : i - 1 < 22 - prods.length)]
  simp only [Option.map_some']
  rw [Nat.sub_add_cancel h1]

theorem padLoop_ne_tooSmall (cloneCount : Int) (fuel : Nat) :
    ∀ (count : Nat) (sched : List ProducerDef),
      padLoop cloneCount fuel count sched ≠ .error .scheduleTooSmall := by
  induction fuel with
  | zero =>
      intro count sched
      simp only [padLoop]
      split <;> simp
  | succ fuel ih =>
      intro count sched
      simp only [padLoop]
      split
      · simp
      · split
        · simp
        · split
          · split
            · exact ih _ _
            · simp
          · simp

theorem shuffleProducers_ne_tooSmall (prods : List ProducerDef) :
    shuffleProducers prods ≠ .error .scheduleTooSmall := by
  rw [shuffleProducers]
  split
  · exact padLoop_ne_tooSmall _ _ _ _
  · simp

theorem shuffleProducers_single (p : ProducerDef) :
    shuffleProducers [p] = .error .divByZero := rfl

theorem shuffleProducers_nil :
    shuffleProducers ([] : List ProducerDef) = .error .indexOutOfRange := rfl

theorem chunkify_foldl_inv (cs : Nat) (acts : List α) :
    ∀ (out : List (List α)) (cur : List α),
      (∀ b ∈ out, b.length = cs + 1) → cur.length ≤ cs + 1 →
      (∀ b ∈ (acts.foldl (chunkifyStep cs) (out, cur)).1, b.length = cs + 1) ∧
      (acts.foldl (chunkifyStep cs) (out, cur)).2.length ≤ cs + 1 ∧
      (acts.foldl (chunkifyStep cs) (out, cur)).1.flatten ++
          (acts.foldl (chunkifyStep cs) (out, cur)).2 = out.flatten ++ cur ++ acts ∧
      ((acts ≠ [] ∨ cur ≠ []) → (acts.foldl (chunkifyStep cs) (out, cur)).2 ≠ []) := by
  induction acts with
  | nil =>
      intro out cur hout hcur
      refine ⟨hout, hcur, by simp, ?_⟩
      rintro (h | h)
      · exact absurd rfl h
      · simpa using h
  | cons a acts ih =>
      intro out cur hout hcur
      rw [List.foldl_cons]
      by_cases hflush : cur.length > cs
      · have hstep : chunkifyStep cs (out, cur) a = (out ++ [cur], [a]) := by
          simp [chunkifyStep, hflush]
        rw [hstep]
        have hcurfull : cur.length = cs + 1 := by omega
        have hout' : ∀ b ∈ out ++ [cur], b.length = cs + 1 := by
          intro b hb
          rcases List.mem_append.1 hb with h | h
          · exact hout b h
          · rw [List.mem_singleton.1 h]; exact hcurfull
        have h := ih (out ++ [cur]) [a] hout' (by simp)
        refine ⟨h.1, h.2.1, ?_, ?_⟩
        · rw [h.2.2.1]
          simp
        · intro _
          exact h.2.2.2 (Or.inr (by simp))
      · have hstep : chunkifyStep cs (out, cur) a = (out, cur ++ [a]) := by
          simp [chunkifyStep, hflush]
        rw [hstep]
        have h := ih out (cur ++ [a]) hout (by simp; omega)
        refine ⟨h.1, h.2.1, ?_, ?_⟩
        · rw [h.2.2.1]
          simp
        · intro _
          exact h.2.2.2 (Or.inr (by simp))

theorem chunkifyActions_join (actions : List α) (cs : Nat) :
    (chunkifyActions actions cs).flatten = actions := by
  have h := chunkify_foldl_inv cs actions [] [] (by simp) (by simp)
  rw [chunkifyActions]
  by_cases hcur : (actions.foldl (chunkifyStep cs) ([], [])).2.length > 0
  · rw [if_pos hcur, List.flatten_append]
    simpa using h.2.2.1
  · rw [if_neg hcur]
    have h2 : (actions.foldl (chunkifyStep cs) ([], [])).2 = [] :=
      List.eq_nil_of_length_eq_zero (by omega)
    have h3 := h.2.2.1
    rw [h2] at h3
    simpa using h3

theorem chunkifyActions_dropLast (actions : List α) (cs : Nat) :
    ∀ b ∈ (chunkifyActions actions cs).dropLast, b.length = cs + 1 := by
  have h := chunkify_foldl_inv cs actions [] [] (by simp) (by simp)
  rw [chunkifyActions]
  by_cases hcur : (actions.foldl (chunkifyStep cs) ([], [])).2.length > 0
  · rw [if_pos hcur, List.dropLast_concat]
    exact h.1
  · rw [if_neg hcur]
    intro b hb
    exact h.1 b (List.dropLast_subset _ hb)

theorem chunkifyActions_batch_bounds (actions : List α) (cs : Nat) :
    ∀ b ∈ chunkifyActions actions cs, 1 ≤ b.length ∧ b.length ≤ cs + 1 := by
  have h := chunkify_foldl_inv cs actions [] [] (by simp) (by simp)
  rw [chunkifyActions]
  by_cases hcur : (actions.foldl (chunkifyStep cs) ([], [])).2.length > 0
  · rw [if_pos hcur]
    intro b hb
    rcases List.mem_append.1 hb with hmem | hmem
    · have := h.1 b hmem
      omega
    · rw [List.mem_singleton.1 hmem]
      have := h.2.1
      omega
  · rw [if_neg hcur]
    intro b hb
    have := h.1 b hb
    omega

theorem chunkify_replicate_state (cs n : Nat) (h1 : 1 ≤ n) :
    (List.replicate n ()).foldl (chunkifyStep cs) ([], []) =
      (List.replicate ((n - 1) / (cs + 1)) (List.replicate (cs + 1) ()),
        List.replicate (n - (cs + 1) * ((n - 1) / (cs + 1))) ()) := by
  induction n with
  | zero => omega
  | succ n ih =>
      by_cases hn : n = 0
      · subst hn
        simp [chunkifyStep]
      · have hn1 : 1 ≤ n := by omega
        rw [List.replicate_succ', List.foldl_append, ih hn1]
        have hdm := Nat.div_add_mod (n - 1) (cs + 1)
        have hmlt := Nat.mod_lt (n - 1) (show 0 < cs + 1 by omega)
        set q := (n - 1) / (cs + 1) with hq
        set r := n - (cs + 1) * q with hr
        have hrlow : 1 ≤ r := by omega
        have hrhigh : r ≤ cs + 1 := by omega
        simp only [List.foldl_cons, List.foldl_nil]
        have hms : (cs + 1) * (q + 1) = (cs + 1) * q + (cs + 1) := by ring
        by_cases hfull : r = cs + 1
        · have hstep : chunkifyStep cs
              (List.replicate q (List.replicate (cs + 1) ()), List.replicate r ()) () =
              (List.replicate q (List.replicate (cs + 1) ()) ++ [List.replicate r ()],
                [()]) := by
            simp only [chunkifyStep]
            rw [if_pos (by simp [hfull])]
          rw [hstep]
          have hneq : n = (cs + 1) * (q + 1) := by omega
          have hq2 : (n + 1 - 1) / (cs + 1) = q + 1 := by
            simp only [Nat.add_sub_cancel]
            rw [hneq]
            exact Nat.mul_div_cancel_left _ (by omega)
          have hr2 : n + 1 - (cs + 1) * (q + 1) = 1 := by omega
          rw [hq2, hr2, hfull, ← List.replicate_succ']
          simp
        · have hstep : chunkifyStep cs
              (List.replicate q (List.replicate (cs + 1) ()), List.replicate r ()) () =
              (List.replicate q (List.replicate (cs + 1) ()),
                List.replicate r () ++ [()]) := by
            simp only [chunkifyStep]
            rw [if_neg (by simp; omega)]
          rw [hstep]
          have hcomm : q * (cs + 1) = (cs + 1) * q := by ring
          have hcomm2 : (q + 1) * (cs + 1) = (cs + 1) * (q + 1) := by ring
          have hq2 : (n + 1 - 1) / (cs + 1) = q := by
            simp only [Nat.add_sub_cancel]
            exact Nat.div_eq_of_lt_le (by omega) (by omega)
          have hr2 : n + 1 - (cs + 1) * q = r + 1 := by omega
          rw [hq2, hr2, ← List.replicate_succ']

theorem chunkify_replicate (cs n : Nat) (h1 : 1 ≤ n) :
    chunkifyActions (List.replicate n ()) cs =
      List.replicate ((n - 1) / (cs + 1)) (List.replicate (cs + 1) ()) ++
        [List.replicate (n - (cs + 1) * ((n - 1) / (cs + 1))) ()] := by
  rw [chunkifyActions, chunkify_replicate_state cs n h1]
  have hdm := Nat.div_add_mod (n - 1) (cs + 1)
  have hmlt := Nat.mod_lt (n - 1) (show 0 < cs + 1 by omega)
  rw [if_pos (by simp; omega)]

theorem slotMatches_iff (sched : List ProducerDef) (account : String) (i : Nat) :
    ((match sched.get? i with
      | some p => p.accountName == account
      | none => false) = true) ↔
      (sched.get? i).map ProducerDef.accountName = some account := by
  cases h : sched.get? i with
  | none => simp
  | some p => simp [beq_iff_eq]

theorem isBootNode_iff (sched : List ProducerDef) (account : String) :
    isBootNode sched account = true ↔
      (sched.get? 0).map ProducerDef.accountName = some account :=
  slotMatches_iff sched account 0

theorem isABP_iff (sched : List ProducerDef) (account : String) :
    isAppointedBlockProducer sched account = true ↔
      ∃ i, 1 ≤ i ∧ i ≤ 21 ∧ (sched.get? i).map ProducerDef.accountName = some account := by
  rw [isAppointedBlockProducer, List.any_eq_true]
  constructor
  · rintro ⟨i, hmem, hp⟩
    rw [List.mem_range'] at hmem
    obtain ⟨k, hk, rfl⟩ := hmem
    exact ⟨1 + 1 * k, by omega, by omega, (slotMatches_iff sched account _).1 hp⟩
  · rintro ⟨i, h1, h21, hp⟩
    refine ⟨i, ?_, (slotMatches_iff sched account i).2 hp⟩
    rw [List.mem_range']
    exact ⟨i - 1, by omega, by omega⟩

theorem resolveRole_characterization (sched : List ProducerDef) (account : String) :
    (resolveRole sched account = .bootNode ↔
      (sched.get? 0).map ProducerDef.accountName = some account) ∧
    (resolveRole sched account = .appointedProducer ↔
      ((sched.get? 0).map ProducerDef.accountName ≠ some account ∧
        ∃ i, 1 ≤ i ∧ i ≤ 21 ∧ (sched.get? i).map ProducerDef.accountName = some account)) ∧
    (resolveRole sched account = .participant ↔
      ((sched.get? 0).map ProducerDef.accountName ≠ some account ∧
        ¬∃ i, 1 ≤ i ∧ i ≤ 21 ∧ (sched.get? i).map ProducerDef.accountName = some account)) := by
  by_cases hb : isBootNode sched account = true
  · have hr : resolveRole sched account = .bootNode := by
      rw [resolveRole, if_pos hb]
    rw [isBootNode_iff] at hb
    rw [hr]
    refine ⟨⟨fun _ => hb, fun _ => rfl⟩, ?_, ?_⟩
    · constructor
      · intro h
        exact absurd h (by simp)
      · rintro ⟨hne, -⟩
        exact absurd hb hne
    · constructor
      · intro h
        exact absurd h (by simp)
      · rintro ⟨hne, -⟩
        exact absurd hb hne
  · by_cases ha : isAppointedBlockProducer sched account = true
    · have hr : resolveRole sched account = .appointedProducer := by
        rw [resolveRole, if_neg hb, if_pos ha]
      rw [isBootNode_iff] at hb
      rw [isABP_iff] at ha
      rw [hr]
      refine ⟨?_, ⟨fun _ => ⟨hb, ha⟩, fun _ => rfl⟩, ?_⟩
      · constructor
        · intro h
          exact absurd h (by simp)
        · intro h
          exact absurd h hb
      · constructor
        · intro h
          exact absurd h (by simp)
        · rintro ⟨-, hno⟩
          exact absurd ha hno
    · have hr : resolveRole sched account = .participant := by
        rw [resolveRole, if_neg hb, if_neg ha]
      rw [isBootNode_iff] at hb
      rw [isABP_iff] at ha
      rw [hr]
      refine ⟨?_, ?_, ⟨fun _ => ⟨hb, ha⟩, fun _ => rfl⟩⟩
      · constructor
        · intro h
          exact absurd h (by simp)
        · intro h
          exact absurd h hb
      · constructor
        · intro h
          exact absurd h (by simp)
        · rintro ⟨-, hyes⟩
          exact absurd hyes ha

theorem setMyProducerDefs_spec (producers sched : List ProducerDef) (account : String) :
    ((∃ defs, setMyProducerDefs producers sched account = .ok defs) ↔
      ∃ p ∈ producers, p.accountName = account) ∧
    (setMyProducerDefs producers sched account = .error .unknownProducer ↔
      ¬∃ p ∈ producers, p.accountName = account) ∧
    (∀ defs, setMyProducerDefs producers sched account = .ok defs →
      defs ≠ [] ∧
      ∃ myProd, myProducerDef producers account = some myProd ∧
        myProd.accountName = account ∧ myProd ∈ producers ∧
        defs = myProd :: sched.filter fun prod => prod.clonedFrom == account) := by
  cases hfind : myProducerDef producers account with
  | none =>
      have hnone : ¬∃ p ∈ producers, p.accountName = account := by
        rw [myProducerDef, List.find?_eq_none] at hfind
        rintro ⟨p, hmem, hname⟩
        exact hfind p hmem (by simp [hname])
      refine ⟨?_, ?_, ?_⟩
      · simp only [setMyProducerDefs, hfind]
        constructor
        · rintro ⟨defs, hdefs⟩
          cases hdefs
        · intro h
          exact absurd h hnone
      · simp only [setMyProducerDefs, hfind]
        simp [hnone]
      · intro defs hdefs
        simp only [setMyProducerDefs, hfind] at hdefs
        cases hdefs
  | some myProd =>
      have hfind' : producers.find? (fun prod => account == prod.accountName) = some myProd :=
        hfind
      have hpred := List.find?_some hfind'
      have hname : myProd.accountName = account := by
        simp only [beq_iff_eq] at hpred
        exact hpred.symm
      have hmem : myProd ∈ producers :=
        List.mem_of_find?_eq_some hfind'
      refine ⟨?_, ?_, ?_⟩
      · simp only [setMyProducerDefs, hfind]
        constructor
        · intro _
          exact ⟨myProd, hmem, hname⟩
        · intro _
          exact ⟨_, rfl⟩
      · simp only [setMyProducerDefs, hfind]
        constructor
        · intro h
          cases h
        · intro h
          exact absurd ⟨myProd, hmem, hname⟩ h
      · intro defs hdefs
        simp only [setMyProducerDefs, hfind, Except.ok.injEq] at hdefs
        subst hdefs
        refine ⟨by simp, myProd, rfl, hname, hmem, ?_⟩
        rw [hname]

theorem runABPPoll_some_spec (responses : Nat → Except Unit AccountResp) (fuel : Nat) :
    ∀ (t0 t : Nat), runABPPoll responses fuel t0 = some t →
      t0 ≤ t ∧ abpPollStep (responses t) = true ∧
        ∀ u, t0 ≤ u → u < t → abpPollStep (responses u) = false := by
  induction fuel with
  | zero =>
      intro t0 t h
      cases h
  | succ fuel ih =>
      intro t0 t h
      rw [runABPPoll] at h
      cases hstep : abpPollStep (responses t0) with
      | true =>
          rw [hstep] at h
          simp only [if_true] at h
          cases h
          exact ⟨Nat.le_refl _, hstep, fun u hu1 hu2 => by omega⟩
      | false =>
          rw [hstep] at h
          simp only [Bool.false_eq_true, if_false] at h
          obtain ⟨hle, hexit, hbefore⟩ := ih (t0 + 1) t h
          refine ⟨by omega, hexit, ?_⟩
          intro u hu1 hu2
          rcases Nat.eq_or_lt_of_le hu1 with heq | hlt
          · rw [← heq]
            exact hstep
          · exact hbefore u (by omega) hu2

theorem runABPPoll_none_iff (responses : Nat → Except Unit AccountResp) (fuel : Nat) :
    ∀ t0, runABPPoll responses fuel t0 = none ↔
      ∀ u, t0 ≤ u → u < t0 + fuel → abpPollStep (responses u) = false := by
  induction fuel with
  | zero =>
      intro t0
      constructor
      · intro _ u h1 h2
        omega
      · intro _
        rfl
  | succ fuel ih =>
      intro t0
      rw [runABPPoll]
      cases hstep : abpPollStep (responses t0) with
      | true =>
          simp only [if_true]
          constructor
          · intro h
            cases h
          · intro h
            have := h t0 (Nat.le_refl _) (by omega)
            rw [hstep] at this
            cases this
      | false =>
          simp only [Bool.false_eq_true, if_false]
          rw [ih (t0 + 1)]
          constructor
          · intro h u h1 h2
            rcases Nat.eq_or_lt_of_le h1 with heq | hlt
            · rw [← heq]
              exact hstep
            · exact h u (by omega) (by omega)
          · intro h u h1 h2
            exact h u (by omega) (by omega)

theorem b64val_b64char : ∀ s, s < 64 → b64val (b64char s) = some s := by decide

theorem b64_roundtrip : ∀ (l : List Nat), (∀ b ∈ l, b < 256) →
    b64decode (b64encode l) = some l := by
  intro l
  induction l using b64encode.induct with
  | case1 =>
      intro _
      rfl
  | case2 b1 =>
      intro hv
      have h1 : b1 < 256 := hv b1 (by simp)
      rw [b64encode, b64decode]
      rw [b64val_b64char _ (by omega), b64val_b64char _ (by omega)]
      simp
      omega
  | case3 b1 b2 =>
      intro hv
      have h1 : b1 < 256 := hv b1 (by simp)
      have h2 : b2 < 256 := hv b2 (by simp)
      rw [b64encode, b64decode]
      rw [b64val_b64char _ (by omega), b64val_b64char _ (by omega),
        b64val_b64char _ (by omega)]
      simp
      omega
  | case4 b1 b2 b3 rest ih =>
      intro hv
      have h1 : b1 < 256 := hv b1 (by simp)
      have h2 : b2 < 256 := hv b2 (by simp)
      have h3 : b3 < 256 := hv b3 (by simp)
      have hrest : ∀ b ∈ rest, b < 256 := fun b hb => hv b (by simp [hb])
      rw [b64encode, b64decode]
      rw [b64val_b64char _ (by omega), b64val_b64char _ (by omega),
        b64val_b64char _ (by omega), b64val_b64char _ (by omega)]
      rw [ih hrest]
      simp
      omega

theorem b64char_not_space : ∀ s, s < 64 →
    isSpaceByte (b64char s) = false ∧ b64char s ≠ 10 := by decide

theorem b64encode_chars : ∀ (l : List Nat), (∀ b ∈ l, b < 256) →
    ∀ c ∈ b64encode l, ∃ s, s < 64 ∧ c = b64char s := by
  intro l
  induction l using b64encode.induct with
  | case1 =>
      intro _ c hc
      cases hc
  | case2 b1 =>
      intro hv c hc
      have h1 : b1 < 256 := hv b1 (by simp)
      rw [b64encode] at hc
      simp only [List.mem_cons, List.not_mem_nil, or_false] at hc
      rcases hc with hc | hc
      · exact ⟨b1 / 4, by omega, hc⟩
      · exact ⟨b1 % 4 * 16, by omega, hc⟩
  | case3 b1 b2 =>
      intro hv c hc
      have h1 : b1 < 256 := hv b1 (by simp)
      have h2 : b2 < 256 := hv b2 (by simp)
      rw [b64encode] at hc
      simp only [List.mem_cons, List.not_mem_nil, or_false] at hc
      rcases hc with hc | hc | hc
      · exact ⟨b1 / 4, by omega, hc⟩
      · exact ⟨b1 % 4 * 16 + b2 / 16, by omega, hc⟩
      · exact ⟨b2 % 16 * 4, by omega, hc⟩
  | case4 b1 b2 b3 rest ih =>
      intro hv c hc
      have h1 : b1 < 256 := hv b1 (by simp)
      have h2 : b2 < 256 := hv b2 (by simp)
      have h3 : b3 < 256 := hv b3 (by simp)
      have hrest : ∀ b ∈ rest, b < 256 := fun b hb => hv b (by simp [hb])
      rw [b64encode] at hc
      simp only [List.mem_cons] at hc
      rcases hc with hc | hc | hc | hc | hc
      · exact ⟨b1 / 4, by omega, hc⟩
      · exact ⟨b1 % 4 * 16 + b2 / 16, by omega, hc⟩
      · exact ⟨b2 % 16 * 4 + b3 / 64, by omega, hc⟩
      · exact ⟨b3 % 64, by omega, hc⟩
      · exact ih hrest c hc

theorem dropWhile_filter_ne10 (s : List Nat)
    (h : ∀ b ∈ s, isSpaceByte b = true → b = 10) :
    (s.dropWhile isSpaceByte).filter (fun b => b != 10) =
      s.filter (fun b => b != 10) := by
  induction s with
  | nil => rfl
  | cons a t ih =>
      rw [List.dropWhile_cons]
      by_cases ha : isSpaceByte a = true
      · have ha10 : a = 10 := h a (by simp) ha
        rw [if_pos ha, ih fun b hb => h b (by simp [hb])]
        subst ha10
        simp
      · rw [if_neg ha]

theorem trim_filter_ne10 (s : List Nat)
    (h : ∀ b ∈ s, isSpaceByte b = true → b = 10) :
    (trimSpaceBytes s).filter (fun b => b != 10) = s.filter (fun b => b != 10) := by
  rw [trimSpaceBytes, List.filter_reverse]
  rw [dropWhile_filter_ne10 _ (fun b hb hsp => h b (by
    have := List.mem_reverse.1 hb
    exact (List.dropWhile_sublist _).subset this) hsp)]
  rw [List.filter_reverse, List.reverse_reverse]
  exact dropWhile_filter_ne10 s h

theorem strip_of_filter (token s : List Nat)
    (htok : ∀ c ∈ token, isSpaceByte c = false)
    (hs : s.filter (fun b => b != 10) = token) :
    stripKickstartText s = token := by
  have hsp : ∀ b ∈ s, isSpaceByte b = true → b = 10 := by
    intro b hb hspb
    by_contra hne
    have hbmem : b ∈ s.filter (fun b => b != 10) :=
      List.mem_filter.2 ⟨hb, by simpa using hne⟩
    rw [hs] at hbmem
    rw [htok b hbmem] at hspb
    cases hspb
  rw [stripKickstartText, trim_filter_ne10 s hsp, hs]

theorem token_filter_self (token : List Nat)
    (htok : ∀ c ∈ token, isSpaceByte c = false) :
    token.filter (fun b => b != 10) = token := by
  rw [List.filter_eq_self]
  intro c hc
  have h10 : c ≠ 10 := by
    intro h
    have := htok c hc
    rw [h] at this
    cases this
  simpa using h10

theorem strip_token (token : List Nat)
    (htok : ∀ c ∈ token, isSpaceByte c = false) :
    stripKickstartText token = token :=
  strip_of_filter token token htok (token_filter_self token htok)

theorem encodeKickstart_no_space (kd : KickstartData)
    (hv : ∀ b ∈ marshalKickstart kd, b < 256) :
    ∀ c ∈ encodeKickstart kd, isSpaceByte c = false := by
  intro c hc
  obtain ⟨s, hs, rfl⟩ := b64encode_chars (marshalKickstart kd) hv c hc
  exact (b64char_not_space s hs).1

theorem hexVal_hexDigit : ∀ x, x < 16 → hexVal (hexDigit x) = some x := by decide

theorem stripPrefixBytes_self : ∀ (p l : List Nat), stripPrefixBytes p (p ++ l) = some l := by
  intro p
  induction p with
  | nil => intro l; rfl
  | cons a p ih =>
      intro l
      rw [List.cons_append, stripPrefixBytes]
      simp [ih]

theorem parseStringBody_escape :
    ∀ (v rest : List Nat), parseStringBody (escapeString v ++ 34 :: rest) = some (v, rest) := by
  intro v
  induction v with
  | nil =>
      intro rest
      simp only [escapeString, List.map_nil, List.flatten_nil, List.nil_append]
      rw [parseStringBody.eq_def]
      split
      all_goals simp_all
  | cons b v ih =>
      intro rest
      have hesc : escapeString (b :: v) = escapeByte b ++ escapeString v := by
        simp [escapeString]
      rw [hesc, List.append_assoc]
      by_cases h34 : b = 34
      · subst h34
        rw [show escapeByte 34 = [92, 34] from rfl]
        simp only [List.cons_append, List.nil_append]
        have hunf : parseStringBody (92 :: 34 :: (escapeString v ++ 34 :: rest)) =
            (parseStringBody (escapeString v ++ 34 :: rest)).map
              (fun p => (34 :: p.1, p.2)) := rfl
        rw [hunf, ih rest]
        rfl
      · by_cases h92 : b = 92
        · subst h92
          rw [show escapeByte 92 = [92, 92] from rfl]
          simp only [List.cons_append, List.nil_append]
          have hunf : parseStringBody (92 :: 92 :: (escapeString v ++ 34 :: rest)) =
              (parseStringBody (escapeString v ++ 34 :: rest)).map
                (fun p => (92 :: p.1, p.2)) := rfl
          rw [hunf, ih rest]
          rfl
        · by_cases hctl : b < 32
          · have hescb : escapeByte b =
                [92, 117, 48, 48, hexDigit (b / 16), hexDigit (b % 16)] := by
              rw [escapeByte, if_neg h34, if_neg h92, if_pos hctl]
            rw [hescb]
            simp only [List.cons_append, List.nil_append]
            have hunf : parseStringBody (92 :: 117 :: 48 :: 48 :: hexDigit (b / 16) ::
                hexDigit (b % 16) :: (escapeString v ++ 34 :: rest)) =
                (match hexVal (hexDigit (b / 16)), hexVal (hexDigit (b % 16)) with
                  | some x1, some x2 =>
                      (parseStringBody (escapeString v ++ 34 :: rest)).map
                        (fun p => ((x1 * 16 + x2) :: p.1, p.2))
                  | _, _ => none) := rfl
            rw [hunf, hexVal_hexDigit _ (by omega), hexVal_hexDigit _ (by omega), ih rest]
            simp only [Option.map_some']
            have hb : b / 16 * 16 + b % 16 = b := by omega
            rw [hb]
          · have hescb : escapeByte b = [b] := by
              rw [escapeByte, if_neg h34, if_neg h92, if_neg hctl]
            rw [hescb]
            simp only [List.cons_append, List.nil_append]
            rw [parseStringBody.eq_def]
            simp only []
            rw [if_neg h34, if_neg h92, ih rest]
            rfl

theorem parseMember_escape (key : String) (v rest : List Nat) :
    parseMember key ((34 :: (strBytes key ++ [34, 58, 34])) ++
      (escapeString v ++ 34 :: rest)) = some (v, rest) := by
  rw [parseMember, stripPrefixBytes_self]
  exact parseStringBody_escape v rest

theorem escapeByte_valid (b : Nat) (h : b < 256) : ∀ x ∈ escapeByte b, x < 256 := by
  intro x hx
  rw [escapeByte] at hx
  have hd : ∀ y, y < 16 → hexDigit y < 256 := by decide
  split at hx
  · simp only [List.mem_cons, List.not_mem_nil, or_false] at hx
    rcases hx with hx | hx <;> omega
  · split at hx
    · simp only [List.mem_cons, List.not_mem_nil, or_false] at hx
      rcases hx with hx | hx <;> omega
    · split at hx
      · simp only [List.mem_cons, List.not_mem_nil, or_false] at hx
        rcases hx with hx | hx | hx | hx | hx | hx
        all_goals subst hx
        all_goals first
          | omega
          | exact hd _ (by omega)
      · simp only [List.mem_cons, List.not_mem_nil, or_false] at hx
        omega

theorem escapeString_valid (v : List Nat) (h : ∀ b ∈ v, b < 256) :
    ∀ x ∈ escapeString v, x < 256 := by
  intro x hx
  rw [escapeString, List.mem_flatten] at hx
  obtain ⟨l, hl, hxl⟩ := hx
  rw [List.mem_map] at hl
  obtain ⟨b, hb, rfl⟩ := hl
  exact escapeByte_valid b (h b hb) x hxl

theorem marshal_valid (kd : KickstartData) (hv : ValidKickstart kd) :
    ∀ b ∈ marshalKickstart kd, b < 256 := by
  obtain ⟨hv1, hv2, hv3, hv4⟩ := hv
  have hjs : ∀ (v : List Nat), (∀ x ∈ v, x < 256) → ∀ x ∈ jsonStringBytes v, x < 256 := by
    intro v hvv x hx
    rw [jsonStringBytes] at hx
    rcases List.mem_cons.1 hx with hx | hx
    · omega
    · rcases List.mem_append.1 hx with hx | hx
      · exact escapeString_valid v hvv x hx
      · simp only [List.mem_singleton] at hx
        omega
  have happ : ∀ (l1 l2 : List Nat), (∀ x ∈ l1, x < 256) → (∀ x ∈ l2, x < 256) →
      ∀ x ∈ l1 ++ l2, x < 256 := by
    intro l1 l2 h1 h2 x hx
    rcases List.mem_append.1 hx with hx | hx
    · exact h1 x hx
    · exact h2 x hx
  have hk1 : ∀ x ∈ jsonStringBytes (strBytes "bios_p2p_address"), x < 256 := by decide
  have hk2 : ∀ x ∈ jsonStringBytes (strBytes "public_key_used"), x < 256 := by decide
  have hk3 : ∀ x ∈ jsonStringBytes (strBytes "private_key_used"), x < 256 := by decide
  have hk4 : ∀ x ∈ jsonStringBytes (strBytes "genesis_json"), x < 256 := by decide
  have hb1 : ∀ x ∈ ([123] : List Nat), x < 256 := by decide
  have hb2 : ∀ x ∈ ([58] : List Nat), x < 256 := by decide
  have hb3 : ∀ x ∈ ([44] : List Nat), x < 256 := by decide
  have hb4 : ∀ x ∈ ([125] : List Nat), x < 256 := by decide
  rw [marshalKickstart]
  exact happ _ _ (happ _ _ (happ _ _ (happ _ _ (happ _ _ (happ _ _ (happ _ _ (happ _ _
    (happ _ _ (happ _ _ (happ _ _ (happ _ _ (happ _ _ (happ _ _ (happ _ _ (happ _ _
    hb1 hk1) hb2) (hjs _ hv1)) hb3) hk2) hb2) (hjs _ hv2)) hb3) hk3) hb2)
    (hjs _ hv3)) hb3) hk4) hb2) (hjs _ hv4)) hb4

theorem stripPrefixBytes_cons1 (b : Nat) (l : List Nat) :
    stripPrefixBytes [b] (b :: l) = some l := by
  simp [stripPrefixBytes]

theorem unmarshal_marshal (kd : KickstartData) :
    unmarshalKickstart (marshalKickstart kd) = some kd := by
  obtain ⟨v1, v2, v3, v4⟩ := kd
  have hk1 : escapeString (strBytes "bios_p2p_address") = strBytes "bios_p2p_address" := by
    decide
  have hk2 : escapeString (strBytes "public_key_used") = strBytes "public_key_used" := by
    decide
  have hk3 : escapeString (strBytes "private_key_used") = strBytes "private_key_used" := by
    decide
  have hk4 : escapeString (strBytes "genesis_json") = strBytes "genesis_json" := by
    decide
  have hm : marshalKickstart ⟨v1, v2, v3, v4⟩ =
      123 :: ((34 :: (strBytes "bios_p2p_address" ++ [34, 58, 34])) ++ (escapeString v1 ++ 34 :: (44 :: ((34 :: (strBytes "public_key_used" ++ [34, 58, 34])) ++ (escapeString v2 ++ 34 :: (44 :: ((34 :: (strBytes "private_key_used" ++ [34, 58, 34])) ++ (escapeString v3 ++ 34 :: (44 :: ((34 :: (strBytes "genesis_json" ++ [34, 58, 34])) ++ (escapeString v4 ++ 34 :: (125 :: [])))))))))))) := by
    rw [marshalKickstart]
    simp only [jsonStringBytes, hk1, hk2, hk3, hk4, List.append_assoc,
      List.cons_append, List.nil_append, List.singleton_append]
  rw [hm, unmarshalKickstart]
  simp only [stripPrefixBytes_cons1, parseMember_escape]
  simp

theorem decode_encode (keyOK : List Nat → Bool) (kd : KickstartData)
    (hv : ValidKickstart kd) (hkey : keyOK kd.privateKeyUsed = true) :
    decodeKickstart keyOK (encodeKickstart kd) = .ok kd := by
  have hmv := marshal_valid kd hv
  have hns : ∀ c ∈ b64encode (marshalKickstart kd), isSpaceByte c = false :=
    encodeKickstart_no_space kd hmv
  rw [decodeKickstart, encodeKickstart, strip_token _ hns, b64_roundtrip _ hmv]
  simp [unmarshal_marshal, hkey]

theorem decode_encode_split (keyOK : List Nat → Bool) (kd : KickstartData) (s : List Nat)
    (hv : ValidKickstart kd) (hkey : keyOK kd.privateKeyUsed = true)
    (hs : s.filter (fun b => b != 10) = encodeKickstart kd) :
    decodeKickstart keyOK s = .ok kd := by
  have hmv := marshal_valid kd hv
  have hns : ∀ c ∈ encodeKickstart kd, isSpaceByte c = false :=
    encodeKickstart_no_space kd hmv
  have hstrip : stripKickstartText s = encodeKickstart kd := strip_of_filter _ s hns hs
  rw [decodeKickstart, hstrip, encodeKickstart, b64_roundtrip _ hmv]
  simp [unmarshal_marshal, hkey]

theorem decodeKickstart_cases (keyOK : List Nat → Bool) (l : List Nat) :
    (decodeKickstart keyOK l = .error .malformedHandoff ↔
      b64decode (stripKickstartText l) = none ∨
        (∃ raw, b64decode (stripKickstartText l) = some raw ∧
          unmarshalKickstart raw = none)) ∧
    (decodeKickstart keyOK l = .error .invalidKey ↔
      ∃ raw kd, b64decode (stripKickstartText l) = some raw ∧
        unmarshalKickstart raw = some kd ∧ keyOK kd.privateKeyUsed = false) ∧
    (∀ kd, decodeKickstart keyOK l = .ok kd ↔
      ∃ raw, b64decode (stripKickstartText l) = some raw ∧
        unmarshalKickstart raw = some kd ∧ keyOK kd.privateKeyUsed = true) := by
  rw [decodeKickstart]
  cases hb : b64decode (stripKickstartText l) with
  | none =>
      refine ⟨by simp, by simp, by simp⟩
  | some raw =>
      cases hu : unmarshalKickstart raw with
      | none =>
          refine ⟨by simp [hu], by simp [hu], by simp [hu]⟩
      | some kd =>
          cases hk : keyOK kd.privateKeyUsed with
          | false =>
              refine ⟨by simp [hu, hk], ?_, ?_⟩
              · simp only [hu, hk, if_false]
                constructor
                · intro _
                  exact ⟨raw, kd, rfl, hu, hk⟩
                · intro _
                  rfl
              · intro kd'
                simp only [hu, hk]
                constructor
                · intro h
                  cases h
                · rintro ⟨raw', hraw', hkd', hk'⟩
                  cases hraw'
                  rw [hu] at hkd'
                  cases hkd'
                  rw [hk] at hk'
                  cases hk'
          | true =>
              refine ⟨by simp [hu, hk], by simp [hu, hk], ?_⟩
              intro kd'
              simp only [hu, hk, if_true]
              constructor
              · intro h
                cases h
                exact ⟨raw, rfl, hu, hk⟩
              · rintro ⟨raw', hraw', hkd', hk'⟩
                cases hraw'
                rw [hu] at hkd'
                cases hkd'
                rfl

/-- C1: chunking at limit 400 partitions the action list: the batches
concatenate back to the input in order; a batch is flushed only once it
already holds more than 400 (hence exactly 401) actions, so every batch
except possibly the last holds exactly 401 actions and the last holds
between 1 and 401; the batch sizes for 0, 1, 400, 401, 402, 800 and 801
actions are [], [1], [400], [401], [401, 1], [401, 399] and [401, 400]. -/
theorem C1_chunkify_batches {α : Type} (actions : List α) :
    (chunkifyActions actions 400).flatten = actions ∧
    (∀ b ∈ (chunkifyActions actions 400).dropLast, b.length = 401) ∧
    (∀ b ∈ chunkifyActions actions 400, 1 ≤ b.length ∧ b.length ≤ 401) ∧
    chunkifyActions ([] : List Unit) 400 = [] ∧
    (chunkifyActions (List.replicate 1 ()) 400).map List.length = [1] ∧
    (chunkifyActions (List.replicate 400 ()) 400).map List.length = [400] ∧
    (chunkifyActions (List.replicate 401 ()) 400).map List.length = [401] ∧
    (chunkifyActions (List.replicate 402 ()) 400).map List.length = [401, 1] ∧
    (chunkifyActions (List.replicate 800 ()) 400).map List.length = [401, 399] ∧
    (chunkifyActions (List.replicate 801 ()) 400).map List.length = [401, 400] := by
  refine ⟨chunkifyActions_join actions 400, chunkifyActions_dropLast actions 400,
    chunkifyActions_batch_bounds actions 400, rfl, ?_, ?_, ?_, ?_, ?_, ?_⟩
  · rw [chunkify_replicate 400 1 (by norm_num)]
    norm_num
  · rw [chunkify_replicate 400 400 (by norm_num)]
    norm_num
  · rw [chunkify_replicate 400 401 (by norm_num)]
    norm_num
  · rw [chunkify_replicate 400 402 (by norm_num)]
    norm_num
  · rw [chunkify_replicate 400 800 (by norm_num)]
    norm_num
  · rw [chunkify_replicate 400 801 (by norm_num)]
    norm_num

/-- C1 witness: the partition equality evaluated on a concrete list. -/
theorem C1_chunkify_batches_witness :
    (chunkifyActions (List.replicate 5 ()) 400).flatten = List.replicate 5 () :=
  (C1_chunkify_batches (List.replicate 5 ())).1

/-- C2: for a candidate list of length L with 2 ≤ L < 22, `ShuffleProducers`
pads the schedule to exactly 22 entries: the first L entries are the
candidates unchanged, and the i-th appended clone (i ≥ 1) is the clone of
`candidates[1 + (i-1) % (L-1)]` — an index that is always at least 1, so
slot 0 is never used as a clone source — with its clone-source
back-reference set to that source's account name; for L ≥ 22 the schedule
is the candidate list unchanged. -/
theorem C2_shuffle_padding (prods : List ProducerDef) :
    (2 ≤ prods.length → prods.length < 22 →
      shuffleProducers prods = .ok (paddedSchedule prods) ∧
      (paddedSchedule prods).length = 22 ∧
      (paddedSchedule prods).take prods.length = prods ∧
      (∀ i, 1 ≤ i → i ≤ 22 - prods.length →
        (paddedSchedule prods).get? (prods.length + i - 1) =
          some (cloneProducer
            (prods.getD (1 + (i - 1) % (prods.length - 1)) default) i) ∧
        (cloneProducer (prods.getD (1 + (i - 1) % (prods.length - 1)) default)
            i).clonedFrom =
          (prods.getD (1 + (i - 1) % (prods.length - 1)) default).accountName ∧
        1 ≤ 1 + (i - 1) % (prods.length - 1) ∧
        1 + (i - 1) % (prods.length - 1) < prods.length)) ∧
    (22 ≤ prods.length → shuffleProducers prods = .ok prods) := by
  constructor
  · intro h2 h22
    refine ⟨shuffleProducers_pad prods h2 h22, paddedSchedule_length prods (by omega),
      paddedSchedule_take prods, ?_⟩
    intro i h1 hle
    have hmod : (i - 1) % (prods.length - 1) < prods.length - 1 :=
      Nat.mod_lt _ (by omega)
    refine ⟨?_, rfl, by omega, by omega⟩
    rw [paddedSchedule_clone prods i h1 hle]
    rfl
  · exact shuffleProducers_large prods

/-- C2 witness: the padding evaluated on five concrete candidates; the
first appended clone sits at slot 5 and is cloned from candidate 1. -/
theorem C2_shuffle_padding_witness :
    shuffleProducers demo5 = .ok (paddedSchedule demo5) ∧
    (paddedSchedule demo5).get? 5 =
      some (cloneProducer (demo5.getD 1 default) 1) := by
  have h := (C2_shuffle_padding demo5).1 (by decide) (by decide)
  refine ⟨h.1, ?_⟩
  have h5 := (h.2.2.2 1 (by decide) (by decide)).1
  norm_num at h5
  exact h5

/-- C3 counterexample: on a 22-slot schedule whose every slot carries the
account "dup", the local account "dup" appears in slots 1 through 21 (slot
1 shown explicitly), yet the node takes the boot-node path and not the
appointed-producer path — refuting "the AppointedProducer path is taken iff
the local account equals the account of some schedule entry in slots 1
through 21". -/
theorem C3_roles_counterexample :
    resolveRole dupSched "dup" = .bootNode ∧
    (dupSched.get? 1).map ProducerDef.accountName = some "dup" ∧
    resolveRole dupSched "dup" ≠ .appointedProducer := by decide

/-- C3 (amended): for a 22-entry schedule, the boot-node path is taken iff
slot 0 carries the local account; the appointed-producer path is taken iff
slot 0 does not carry the local account and some slot 1..21 does; the
participant path is taken iff neither holds.  (The boot-node check has
priority: a local account matching both slot 0 and a later slot takes the
boot-node path.) -/
theorem C3_roles_amended (sched : List ProducerDef) (account : String)
    (_h22 : sched.length = 22) :
    (resolveRole sched account = .bootNode ↔
      (sched.get? 0).map ProducerDef.accountName = some account) ∧
    (resolveRole sched account = .appointedProducer ↔
      ((sched.get? 0).map ProducerDef.accountName ≠ some account ∧
        ∃ i, 1 ≤ i ∧ i ≤ 21 ∧
          (sched.get? i).map ProducerDef.accountName = some account)) ∧
    (resolveRole sched account = .participant ↔
      ((sched.get? 0).map ProducerDef.accountName ≠ some account ∧
        ¬∃ i, 1 ≤ i ∧ i ≤ 21 ∧
          (sched.get? i).map ProducerDef.accountName = some account)) :=
  resolveRole_characterization sched account

/-- C3 witness: the amended characterization applied to the concrete
duplicate schedule, where the boot-node biconditional holds. -/
theorem C3_roles_amended_witness :
    resolveRole dupSched "dup" = .bootNode :=
  (C3_roles_amended dupSched "dup" (by decide)).1.2 (by decide)

/-- C4: for every well-formed kickstart payload (byte-string fields and a
private-key string the key parser accepts), decoding the unpadded-base64
encoding of its JSON serialization returns the payload again, and the
round-trip still holds for any text whose non-newline bytes are exactly the
encoded token — i.e. when the token is split across multiple lines before
decoding. -/
theorem C4_kickstart_roundtrip (keyOK : List Nat → Bool) (kd : KickstartData)
    (s : List Nat) (hv : ValidKickstart kd) (hkey : keyOK kd.privateKeyUsed = true)
    (hs : s.filter (fun b => b != 10) = encodeKickstart kd) :
    decodeKickstart keyOK (encodeKickstart kd) = .ok kd ∧
    decodeKickstart keyOK s = .ok kd :=
  ⟨decode_encode keyOK kd hv hkey, decode_encode_split keyOK kd s hv hkey hs⟩

set_option maxRecDepth 4000 in
/-- C4 witness: the round-trip evaluated on a concrete payload, with the
encoded token split across three lines. -/
theorem C4_kickstart_roundtrip_witness :
    decodeKickstart demoKeyOK (encodeKickstart demoKd) = .ok demoKd ∧
    decodeKickstart demoKeyOK demoSplitText = .ok demoKd :=
  C4_kickstart_roundtrip demoKeyOK demoKd demoSplitText (by decide) (by decide)
    (by decide)

set_option maxRecDepth 4000 in
/-- C5: decoding kickstart text fails exactly when, after stripping
surrounding whitespace and embedded newlines, the text is not valid
unpadded base64 or the decoded bytes are not a kickstart JSON payload
(both yielding the malformed-handoff error), or the embedded private-key
string fails to parse (yielding the invalid-key error); concrete instances
of all three rejections are shown, and a payload whose public key does not
correspond to its private key still decodes successfully (no
cross-validation). -/
theorem C5_decode_errors :
    (∀ (keyOK : List Nat → Bool) (l : List Nat),
      (decodeKickstart keyOK l = .error .malformedHandoff ↔
        b64decode (stripKickstartText l) = none ∨
          (∃ raw, b64decode (stripKickstartText l) = some raw ∧
            unmarshalKickstart raw = none)) ∧
      (decodeKickstart keyOK l = .error .invalidKey ↔
        ∃ raw kd, b64decode (stripKickstartText l) = some raw ∧
          unmarshalKickstart raw = some kd ∧ keyOK kd.privateKeyUsed = false)) ∧
    (∀ keyOK : List Nat → Bool,
      decodeKickstart keyOK (strBytes "@@@@") = .error .malformedHandoff) ∧
    (∀ keyOK : List Nat → Bool,
      decodeKickstart keyOK (b64encode (strBytes "hi")) = .error .malformedHandoff) ∧
    decodeKickstart (fun _ => false) (encodeKickstart demoKd) = .error .invalidKey ∧
    decodeKickstart demoKeyOK (encodeKickstart demoMismatchKd) = .ok demoMismatchKd := by
  refine ⟨?_, ?_, ?_, ?_, ?_⟩
  · intro keyOK l
    exact ⟨(decodeKickstart_cases keyOK l).1, (decodeKickstart_cases keyOK l).2.1⟩
  · intro keyOK
    rfl
  · intro keyOK
    rfl
  · have hv : ValidKickstart demoKd := by decide
    have hmv := marshal_valid demoKd hv
    have hns : ∀ c ∈ b64encode (marshalKickstart demoKd), isSpaceByte c = false :=
      encodeKickstart_no_space demoKd hmv
    rw [decodeKickstart, encodeKickstart, strip_token _ hns, b64_roundtrip _ hmv]
    simp [unmarshal_marshal]
  · exact decode_encode demoKeyOK demoMismatchKd (by decide) (by decide)

/-- C6: `setMyProducerDefs` succeeds exactly when some entry of the
un-padded candidate list carries the local account (failing with the
unknown-producer error otherwise); on success the result is non-empty,
starts with the matching original entry, and continues with exactly those
schedule entries whose clone-source equals the local account, in schedule
order. -/
theorem C6_my_producer_defs (producers sched : List ProducerDef) (account : String) :
    ((∃ defs, setMyProducerDefs producers sched account = .ok defs) ↔
      ∃ p ∈ producers, p.accountName = account) ∧
    (setMyProducerDefs producers sched account = .error .unknownProducer ↔
      ¬∃ p ∈ producers, p.accountName = account) ∧
    (∀ defs, setMyProducerDefs producers sched account = .ok defs →
      defs ≠ [] ∧
      ∃ myProd, myProducerDef producers account = some myProd ∧
        myProd.accountName = account ∧ myProd ∈ producers ∧
        defs = myProd :: sched.filter fun prod => prod.clonedFrom == account) :=
  setMyProducerDefs_spec producers sched account

/-- C6 witness: the success case evaluated on concrete lists — the local
producer `abc` yields itself followed by the single clone whose
clone-source is `abc`. -/
theorem C6_my_producer_defs_witness :
    [mkProd "abc" "Org", demoClone] ≠ ([] : List ProducerDef) ∧
    ∃ myProd, myProducerDef demo2 "abc" = some myProd ∧
      myProd.accountName = "abc" ∧ myProd ∈ demo2 ∧
      [mkProd "abc" "Org", demoClone] =
        myProd :: demoSched3.filter fun prod => prod.clonedFrom == "abc" :=
  (C6_my_producer_defs demo2 demoSched3 "abc").2.2 [mkProd "abc" "Org", demoClone]
    (by rfl)

/-- C7 counterexample: padding two candidates (`boot` and `abc`, the latter
with organization name `Org`) puts at slot 2 a clone whose account name is
`abc.a` — the shortened source identifier, a dot, and the suffix letter —
not `abca`, the source identifier directly followed by the letter; and its
organization name is `Org - clone 1`, not a copy of the source's `Org`. -/
theorem C7_clone_name_counterexample :
    shuffleProducers demo2 = .ok (paddedSchedule demo2) ∧
    ((paddedSchedule demo2).get? 2).map ProducerDef.accountName = some "abc.a" ∧
    "abc.a" ≠ "abc" ++ "a" ∧
    ((paddedSchedule demo2).get? 2).map ProducerDef.organizationName =
      some "Org - clone 1" ∧
    "Org - clone 1" ≠ "Org" :=
  ⟨shuffleProducers_pad demo2 (by decide) (by decide), by decide, by decide,
    by decide, by decide⟩

theorem accountVariation_data (n : String) (v : Nat) (hv : 1 ≤ v) (hv26 : v ≤ 26) :
    (accountVariation n v).data =
      (if n.length > 10 then n.take 10 else n).data ++
        ['.', Char.ofNat (97 + (v - 1))] := by
  rw [accountVariation]
  have hm1 : (v - 1) % 256 = v - 1 := Nat.mod_eq_of_lt (by omega)
  have hm2 : (97 + (v - 1)) % 256 = 97 + (v - 1) := Nat.mod_eq_of_lt (by omega)
  rw [hm1, hm2]
  rw [String.data_append, String.data_append]
  have hsing : (String.singleton (Char.ofNat (97 + (v - 1)))).data =
      [Char.ofNat (97 + (v - 1))] := by
    simp [String.singleton]
  rw [hsing]
  have hdot : (".".data : List Char) = ['.'] := rfl
  rw [hdot, List.append_assoc]
  rfl

theorem accountVariation_ne (n1 n2 : String) (v1 v2 : Nat) (h1 : 1 ≤ v1)
    (h2 : 1 ≤ v2) (h26a : v1 ≤ 26) (h26b : v2 ≤ 26) (hne : v1 ≠ v2) :
    accountVariation n1 v1 ≠ accountVariation n2 v2 := by
  intro heq
  have hdata := congrArg String.data heq
  rw [accountVariation_data n1 v1 h1 h26a, accountVariation_data n2 v2 h2 h26b] at hdata
  have hlast := congrArg List.getLast? hdata
  have hsplit : ∀ (l : List Char) (c : Char), l ++ ['.', c] = (l ++ ['.']) ++ [c] := by
    intro l c
    rw [List.append_assoc]
    rfl
  rw [hsplit, hsplit, List.getLast?_concat, List.getLast?_concat] at hlast
  have hchar : Char.ofNat (97 + (v1 - 1)) = Char.ofNat (97 + (v2 - 1)) :=
    Option.some.inj hlast
  have hinj : ∀ a, a < 26 → ∀ b, b < 26 → a ≠ b →
      Char.ofNat (97 + a) ≠ Char.ofNat (97 + b) := by decide
  exact hinj (v1 - 1) (by omega) (v2 - 1) (by omega) (by omega) hchar

/-- C7 (amended): every clone appended during padding (2 ≤ L < 22
candidates) has an account name equal to the source account identifier
shortened to at most 10 characters, then a dot separator, then a single
lowercase suffix letter that increments once per appended clone; all clone
account names are pairwise distinct; the authority, signing-key, keybase,
PGP, timezone and URL fields are copied from the source, while the
organization name is the source's tagged with " - clone N" and the
clone-source back-reference is set to the source's account name. -/
theorem C7_clone_accounts_amended (prods : List ProducerDef)
    (h2 : 2 ≤ prods.length) (h22 : prods.length < 22) :
    (∀ i, 1 ≤ i → i ≤ 22 - prods.length →
      (paddedSchedule prods).get? (prods.length + i - 1) =
        some (cloneProducer
          (prods.getD (1 + (i - 1) % (prods.length - 1)) default) i) ∧
      (∀ src : ProducerDef,
        (cloneProducer src i).accountName =
          (if src.accountName.length > 10 then src.accountName.take 10
            else src.accountName) ++ "." ++
            String.singleton (Char.ofNat (97 + (i - 1))) ∧
        (cloneProducer src i).authority = src.authority ∧
        (cloneProducer src i).initialBlockSigningPublicKey =
          src.initialBlockSigningPublicKey ∧
        (cloneProducer src i).keybaseUser = src.keybaseUser ∧
        (cloneProducer src i).pgpPublicKey = src.pgpPublicKey ∧
        (cloneProducer src i).timezone = src.timezone ∧
        (cloneProducer src i).urls = src.urls ∧
        (cloneProducer src i).organizationName =
          src.organizationName ++ " - clone " ++ toString i ∧
        (cloneProducer src i).clonedFrom = src.accountName)) ∧
    (∀ i j, 1 ≤ i → i < j → j ≤ 22 - prods.length → ∀ src1 src2 : ProducerDef,
      (cloneProducer src1 i).accountName ≠ (cloneProducer src2 j).accountName) := by
  constructor
  · intro i h1 hle
    constructor
    · rw [paddedSchedule_clone prods i h1 hle]
      rfl
    · intro src
      refine ⟨?_, rfl, rfl, rfl, rfl, rfl, rfl, rfl, rfl⟩
      show accountVariation src.accountName i = _
      apply String.ext
      rw [accountVariation_data src.accountName i h1 (by omega)]
      rw [String.data_append, String.data_append]
      have hsing : (String.singleton (Char.ofNat (97 + (i - 1)))).data =
          [Char.ofNat (97 + (i - 1))] := by
        simp [String.singleton]
      rw [hsing]
      have hdot : (".".data : List Char) = ['.'] := rfl
      rw [hdot, List.append_assoc]
      rfl
  · intro i j h1 hij hle src1 src2
    show accountVariation src1.accountName i ≠ accountVariation src2.accountName j
    exact accountVariation_ne _ _ i j h1 (by omega) (by omega) (by omega) (by omega)

/-- C7 witness: the first clone of the two-candidate example carries the
dotted account name built from the shortened source identifier and the
suffix letter a. -/
theorem C7_clone_accounts_amended_witness :
    (cloneProducer (mkProd "abc" "Org") 1).accountName =
      (if ("abc" : String).length > 10 then ("abc" : String).take 10 else "abc") ++
        "." ++ String.singleton (Char.ofNat 97) :=
  (((C7_clone_accounts_amended demo2 (by decide) (by decide)).1 1 (by decide)
    (by decide)).2 (mkProd "abc" "Org")).1

/-- C8: with the minimum slot count fixed at 22, schedule building fails
with the schedule-too-small error whenever 22 minus the candidate count
exceeds 26 — a condition no candidate count can satisfy, making the first
part vacuous — and in every other case (that is, always) padding produces
no such error: no execution path of `ShuffleProducers` yields it. -/
theorem C8_schedule_too_small (prods : List ProducerDef) :
    ((22 : Int) - prods.length > 26 →
      shuffleProducers prods = .error .scheduleTooSmall) ∧
    (¬((22 : Int) - prods.length > 26) →
      shuffleProducers prods ≠ .error .scheduleTooSmall) ∧
    shuffleProducers prods ≠ .error .scheduleTooSmall := by
  refine ⟨?_, fun _ => shuffleProducers_ne_tooSmall prods,
    shuffleProducers_ne_tooSmall prods⟩
  intro h
  exact absurd h (by omega)

/-- C8 witness: a 22-candidate schedule build, where the vacuous bound
does not hold and no schedule-too-small error is produced. -/
theorem C8_schedule_too_small_witness :
    shuffleProducers (List.replicate 22 (mkProd "dup" "D")) ≠
      .error .scheduleTooSmall :=
  (C8_schedule_too_small (List.replicate 22 (mkProd "dup" "D"))).2.1 (by decide)

/-- C9: the ABP verification loop, polling once per one-second iteration,
exits at iteration t only if the t-th read succeeded with an account that
has exactly two permission entries each of authority threshold 0, having
continued through every earlier iteration; for any bound it runs to, it is
still polling iff no iteration below the bound satisfied that condition
(no timeout or retry limit); a failed account read continues the loop
exactly like a not-yet-disabled account. -/
theorem C9_abp_poll (responses : Nat → Except Unit AccountResp) (fuel : Nat) :
    (∀ t, runABPPoll responses fuel 0 = some t →
      abpPollStep (responses t) = true ∧
        ∀ u, u < t → abpPollStep (responses u) = false) ∧
    (runABPPoll responses fuel 0 = none ↔
      ∀ u, u < fuel → abpPollStep (responses u) = false) ∧
    abpPollStep (.error ()) = false ∧
    (∀ acct, eosioDisabled acct = false →
      abpPollStep (.ok acct) = abpPollStep (.error ())) ∧
    (∀ acct, abpPollStep (.ok acct) = true ↔
      (acct.permissions.length = 2 ∧
        (acct.permissions.get? 0).map AccountPermission.threshold = some 0 ∧
        (acct.permissions.get? 1).map AccountPermission.threshold = some 0)) := by
  refine ⟨?_, ?_, rfl, ?_, ?_⟩
  · intro t h
    obtain ⟨-, hexit, hbefore⟩ := runABPPoll_some_spec responses fuel 0 t h
    exact ⟨hexit, fun u hu => hbefore u (by omega) hu⟩
  · rw [runABPPoll_none_iff responses fuel 0]
    constructor
    · intro h u hu
      exact h u (by omega) (by omega)
    · intro h u _ hu
      exact h u (by omega)
  · intro acct hd
    rw [abpPollStep, abpPollStep, hd]
  · intro acct
    rw [abpPollStep, eosioDisabled]
    simp [beq_iff_eq]
    rw [and_assoc]

/-- C9 witness: a stream of two failed reads, one not-yet-disabled read and
then a disabled account; within 10 iterations the loop exits at iteration
3, and the error-only stream is still polling after 10 iterations. -/
theorem C9_abp_poll_witness :
    runABPPoll errStream 10 0 = none :=
  (C9_abp_poll errStream 10).2.1.mpr (by decide)

/-- C10: padding a single-candidate list computes `count % cloneCount` with
`cloneCount = 0` and aborts with the integer division-by-zero panic rather
than returning an error value; padding is total — the schedule build
returns a schedule — exactly when the candidate list has at least two
entries. -/
theorem C10_single_candidate_panic :
    (∀ p : ProducerDef, shuffleProducers [p] = .error .divByZero) ∧
    (∀ prods : List ProducerDef,
      (∃ sched, shuffleProducers prods = .ok sched) ↔ 2 ≤ prods.length) := by
  refine ⟨shuffleProducers_single, ?_⟩
  intro prods
  constructor
  · rintro ⟨sched, hsched⟩
    match prods, hsched with
    | [], hsched => rw [shuffleProducers_nil] at hsched; cases hsched
    | [p], hsched => rw [shuffleProducers_single] at hsched; cases hsched
    | p :: q :: rest, _ => simp only [List.length_cons]; omega
  · intro h2
    by_cases h22 : prods.length < 22
    · exact ⟨paddedSchedule prods, shuffleProducers_pad prods h2 h22⟩
    · exact ⟨prods, shuffleProducers_large prods (by omega)⟩

/-- C10 witness: the division-by-zero panic on a concrete single
candidate. -/
theorem C10_single_candidate_panic_witness :
    shuffleProducers [mkProd "solo" "S"] = .error .divByZero :=
  C10_single_candidate_panic.1 (mkProd "solo" "S")

/-- C5 witness: the no-cross-validation instance — the mismatched-key
payload decodes successfully. -/
theorem C5_decode_errors_witness :
    decodeKickstart demoKeyOK (encodeKickstart demoMismatchKd) =
      .ok demoMismatchKd :=
  C5_decode_errors.2.2.2.2
